import Mathlib

/-!
Verification of the caching HTTP client of the Smogon Discord bot
(`src/utils/api_clients.py`, `src/utils/decorators.py`, `src/config/settings.py`).

The Python client keeps an LRU cache (`collections.OrderedDict`) mapping
string keys to `(data, timestamp)` pairs, a format-discovery cache, retry
with exponential backoff, a circuit breaker, and pickle-based persistence.
We embed the state and the operations shallowly: the `OrderedDict` becomes
an association list in insertion order (head = oldest / least recently
used, tail = most recently used), timestamps are integers, and the network
is an explicit oracle argument.
-/

namespace SmogonBot

/-! ## Association-list model of `collections.OrderedDict` -/

/-- First value bound to key `k` (Python `d[k]` / `k in d`). -/
def lookupKey {α : Type} (c : List (String × α)) (k : String) : Option α :=
  match c with
  | [] => none
  | e :: rest => if e.1 = k then some e.2 else lookupKey rest k

/-- Remove every binding of key `k` (Python `del d[k]`; keys are unique in a
real dict, so at most one binding is removed on reachable states). -/
def eraseKey {α : Type} (c : List (String × α)) (k : String) : List (String × α) :=
  c.filter (fun e => decide (e.1 ≠ k))

/-- Python `d[k] = v` on an `OrderedDict`: update the value in place if the
key is present (keeping its position), otherwise append at the end. -/
def setKey {α : Type} (c : List (String × α)) (k : String) (v : α) : List (String × α) :=
  match c with
  | [] => [(k, v)]
  | e :: rest => if e.1 = k then (k, v) :: rest else e :: setKey rest k v

/-- Python `d.move_to_end(k)`: re-insert the binding of `k` at the tail
(most-recently-used end).  The client only calls it when `k` is present. -/
def moveToEnd {α : Type} (c : List (String × α)) (k : String) : List (String × α) :=
  match lookupKey c k with
  | some v => eraseKey c k ++ [(k, v)]
  | none => c

/-! ## Data model -/

/-- Values stored in the client's value cache (`self.cache` holds `Any`):
either a sets payload sub-item (opaque, identified by a natural number) or
a list of tier names stored under a `tier_location:` key by
`find_pokemon_in_generation`. -/
inductive CacheVal where
  | sets : Nat → CacheVal
  | tiers : List String → CacheVal
deriving DecidableEq, Repr

/-- Configuration constants read from `config/settings.py` /
`utils/constants.py`.  `formatCacheTimeout` and `comprehensiveFormats` are
imported by `api_clients.py` from a settings revision that is not present
under `src/`; they are modelled from the spec (see their defaults). -/
structure Config where
  cacheTimeout : Int
  maxCacheSize : Nat
  formatCacheTimeout : Int
  priorityFormats : List String
  comprehensiveFormats : List String
deriving DecidableEq, Repr

/-- Constant `CACHE_TIMEOUT = 60` (`config/settings.py`). -/
def CACHE_TIMEOUT : Int := 60

/-- Constant `MAX_CACHE_SIZE = 200` (`config/settings.py`). -/
def MAX_CACHE_SIZE : Nat := 200

/-- Modelled from the spec: `FORMAT_CACHE_TIMEOUT` is imported by
`src/utils/api_clients.py` from `config.settings` but no revision under
`src/` defines it; the spec (§3, FormatDiscoveryCache) only requires "a
longer independent TTL than the main cache".  We pick one day. -/
def FORMAT_CACHE_TIMEOUT : Int := 86400

/-- Constant `PRIORITY_FORMATS` (`config/settings.py`). -/
def PRIORITY_FORMATS : List String := ["ou", "ubers", "uu", "doublesou"]

/-- Modelled from the spec: `COMPREHENSIVE_FORMAT_LIST` is imported by
`src/utils/api_clients.py` but not defined under `src/`; the spec only
says it is the list of candidate partitions probed for existence.  Any
list works for the claims; the default takes the gen9 formats of
`FORMATS_BY_GEN` from `config/settings.py`. -/
def COMPREHENSIVE_FORMAT_LIST : List String :=
  ["ou", "ubers", "nationaldex", "uu", "doublesou", "ru", "nu", "pu", "lc",
   "monotype", "1v1", "vgc2025regh", "zu", "cap", "ag"]

/-- The configuration assembled from `config/settings.py`. -/
def defaultConfig : Config :=
  { cacheTimeout := CACHE_TIMEOUT
    maxCacheSize := MAX_CACHE_SIZE
    formatCacheTimeout := FORMAT_CACHE_TIMEOUT
    priorityFormats := PRIORITY_FORMATS
    comprehensiveFormats := COMPREHENSIVE_FORMAT_LIST }

/-- Mutable state of `SmogonAPIClient`: the LRU value cache (key ↦
`(data, timestamp)`), the format-discovery cache (generation ↦
`(formats, timestamp)`), and the statistics counters. -/
structure ClientState where
  cache : List (String × CacheVal × Int)
  discoveredFormats : List (String × List String × Int)
  cacheHits : Nat
  cacheMisses : Nat
  formatDiscoveries : Nat
deriving DecidableEq, Repr

/-- State of `SmogonAPIClient.__init__` before any disk load: everything empty. -/
def ClientState.initial : ClientState :=
  { cache := []
    discoveredFormats := []
    cacheHits := 0
    cacheMisses := 0
    formatDiscoveries := 0 }

/-! ## `_get_cached` / `_set_cache` -/

/-- Model of `SmogonAPIClient._get_cached` at time `t`: on a present, fresh entry it
promotes the key to most-recently-used, counts a hit and returns the data;
on a present but expired entry it deletes the entry and counts a miss; on
an absent key it counts a miss. -/
def getCached (cfg : Config) (st : ClientState) (t : Int) (key : String) :
    Option CacheVal × ClientState :=
  match lookupKey st.cache key with
  | some (data, ts) =>
    if t - ts < cfg.cacheTimeout then
      (some data,
        { st with cache := moveToEnd st.cache key, cacheHits := st.cacheHits + 1 })
    else
      (none,
        { st with cache := eraseKey st.cache key, cacheMisses := st.cacheMisses + 1 })
  | none => (none, { st with cacheMisses := st.cacheMisses + 1 })

/-- The `while len(self.cache) >= MAX_CACHE_SIZE` loop of `_set_cache`:
repeatedly evict the oldest entry (`next(iter(self.cache))` is the head of
the insertion order).  With `maxSize = 0` and an empty dict the Python loop
would raise `StopIteration`; the model returns the empty cache there. -/
def evictWhileFull {α : Type} (maxSize : Nat) (c : List (String × α)) :
    List (String × α) :=
  match c with
  | [] => []
  | e :: rest =>
    if maxSize ≤ (e :: rest).length then evictWhileFull maxSize rest
    else e :: rest

/-- Model of `SmogonAPIClient._set_cache` at time `t`: evict oldest entries while at
capacity, then bind `key` to `(data, t)`. -/
def setCache (cfg : Config) (st : ClientState) (t : Int) (key : String)
    (data : CacheVal) : ClientState :=
  { st with cache := setKey (evictWhileFull cfg.maxCacheSize st.cache) key (data, t) }

/-- Model of `SmogonAPIClient._cleanup_expired_cache` at time `t` (note the strict
`>` in the source: an entry whose age is exactly the TTL is kept by the
sweep, though `_get_cached` already treats it as expired). -/
def cleanupExpiredCache (cfg : Config) (st : ClientState) (t : Int) : ClientState :=
  { st with
    cache := st.cache.filter (fun e => decide (¬ t - e.2.2 > cfg.cacheTimeout))
    discoveredFormats :=
      st.discoveredFormats.filter (fun e => decide (¬ t - e.2.2 > cfg.formatCacheTimeout)) }

/-- Model of `SmogonAPIClient.clear_cache`. -/
def clearCache (st : ClientState) : ClientState :=
  { st with
    cache := []
    discoveredFormats := []
    cacheHits := 0
    cacheMisses := 0
    formatDiscoveries := 0 }

/-! ## String normalization (`pokemon.lower().strip().replace(" ", "-")`) -/

/-- Python `str.lower()` (ASCII-faithful). -/
def pyLower (s : String) : String := String.mk (s.toList.map Char.toLower)

/-- Python `str.strip()`: drop whitespace from both ends. -/
def pyStrip (s : String) : String :=
  String.mk (((s.toList.dropWhile Char.isWhitespace).reverse.dropWhile
    Char.isWhitespace).reverse)

/-- Python `str.replace(" ", "-")`: the pattern is a single character, so
this is a character map. -/
def replaceSpaceDash (s : String) : String :=
  String.mk (s.toList.map (fun c => if c = ' ' then '-' else c))

/-- Normalization applied to payload keys in `get_sets`:
`poke_name.lower().replace(" ", "-")` (no strip). -/
def normName (s : String) : String := replaceSpaceDash (pyLower s)

/-- Normalization applied to the query:
`pokemon.lower().strip().replace(" ", "-")`. -/
def normQuery (s : String) : String := replaceSpaceDash (pyStrip (pyLower s))

/-- Normalization `generation.lower().strip()` / `tier.lower().strip()`. -/
def lowerStrip (s : String) : String := pyStrip (pyLower s)

/-- Python `a in b` on strings: substring containment. -/
def containsSubstr (needle hay : String) : Bool :=
  decide (needle.toList <:+: hay.toList)

/-! ## The network oracle and `get_sets` -/

/-- Outcome of one outbound `session.get` for a sets URL, as observed by
`get_sets`.  A 200 body is a JSON object, modelled as an association list
in the payload's natural iteration order; `okMalformed` is a 200 whose
body fails to decode (`json.JSONDecodeError`, which is not an
`aiohttp.ClientError`); `serverError` is any status other than 200/404;
`netError` is a raised `aiohttp.ClientError`; `timeout` is a raised
`asyncio.TimeoutError`. -/
inductive HttpResult where
  | ok : List (String × Nat) → HttpResult
  | okMalformed : HttpResult
  | notFound : HttpResult
  | serverError : Nat → HttpResult
  | netError : HttpResult
  | timeout : HttpResult
deriving DecidableEq, Repr

/-- The two exception kinds `get_sets` re-raises (and the only kinds its
`@retry_on_error` decorator catches). -/
inductive FetchErr where
  | netError : FetchErr
  | timeout : FetchErr
deriving DecidableEq, Repr

deriving instance DecidableEq for Except

/-- Result of one (un-retried) `get_sets` call body: the returned value or
raised exception, the state after the call, and how many outbound HTTP
requests were performed. -/
structure GetSetsResult where
  result : Except FetchErr (Option CacheVal)
  state : ClientState
  networkCalls : Nat
deriving DecidableEq, Repr

/-- The `format_id` string `f"{generation}{tier}"` of `get_sets` (after
normalization). -/
def mkFormatId (generation tier : String) : String :=
  lowerStrip generation ++ lowerStrip tier

/-- The cache key `f"{format_id}:{pokemon}"` of `get_sets`. -/
def mkCacheKey (pokemon generation tier : String) : String :=
  mkFormatId generation tier ++ ":" ++ normQuery pokemon

/-- The exact-match pass of `get_sets`: first payload entry whose
normalized key equals the normalized query. -/
def findExact (q : String) (payload : List (String × Nat)) : Option (String × Nat) :=
  payload.find? (fun e => normName e.1 == q)

/-- The partial-match pass of `get_sets`: first payload entry whose
normalized key contains the normalized query as a substring. -/
def findSub (q : String) (payload : List (String × Nat)) : Option (String × Nat) :=
  payload.find? (fun e => containsSubstr q (normName e.1))

/-- The part of `get_sets` that runs after a cache miss: one HTTP GET, then
on 200 the exact-match search, the partial-match fallback, caching of the
matched sub-item; 404 and other statuses return `None`; a decode error is
swallowed by the blanket `except Exception` handler and becomes `None`;
`aiohttp.ClientError` and `asyncio.TimeoutError` are re-raised. -/
def getSetsFetch (cfg : Config) (st : ClientState) (t : Int)
    (net : String → HttpResult) (q formatId cacheKey : String) : GetSetsResult :=
  match net formatId with
  | .ok payload =>
    match findExact q payload with
    | some e => ⟨.ok (some (.sets e.2)), setCache cfg st t cacheKey (.sets e.2), 1⟩
    | none =>
      match findSub q payload with
      | some e => ⟨.ok (some (.sets e.2)), setCache cfg st t cacheKey (.sets e.2), 1⟩
      | none => ⟨.ok none, st, 1⟩
  | .okMalformed => ⟨.ok none, st, 1⟩
  | .notFound => ⟨.ok none, st, 1⟩
  | .serverError _ => ⟨.ok none, st, 1⟩
  | .netError => ⟨.error .netError, st, 1⟩
  | .timeout => ⟨.error .timeout, st, 1⟩

/-- One call of the body of `SmogonAPIClient.get_sets` (the function the
`@retry_on_error(max_retries=3)` decorator wraps) at time `t`, with the
network behaviour given by the oracle `net` (indexed by `format_id`). -/
def getSets (cfg : Config) (st : ClientState) (t : Int)
    (net : String → HttpResult) (pokemon generation tier : String) : GetSetsResult :=
  let q := normQuery pokemon
  let formatId := mkFormatId generation tier
  let cacheKey := mkCacheKey pokemon generation tier
  match getCached cfg st t cacheKey with
  | (some v, st1) => ⟨.ok (some v), st1, 0⟩
  | (none, st1) => getSetsFetch cfg st1 t net q formatId cacheKey

/-! ## `retry_on_error` (`src/utils/decorators.py`) -/

/-- Constant `DEFAULT_RETRY_ATTEMPTS` (`utils/constants.py`). -/
def DEFAULT_RETRY_ATTEMPTS : Nat := 3

/-- Constant `RETRY_BASE_DELAY` (`utils/constants.py`). -/
def RETRY_BASE_DELAY : Nat := 1

/-- Constant `RETRY_MAX_DELAY` (`utils/constants.py`). -/
def RETRY_MAX_DELAY : Nat := 10

/-- How a call wrapped by `retry_on_error` finishes: a returned value, a
propagated exception, or the implicit `None` the Python wrapper returns
when `max_retries = 0` (the `for` loop body never runs). -/
inductive RetryRes (ε α : Type) where
  | ok : α → RetryRes ε α
  | raised : ε → RetryRes ε α
  | noneReturn : RetryRes ε α
deriving DecidableEq, Repr

/-- Result of a `retry_on_error`-wrapped call: outcome, number of times the
wrapped function was invoked, and the list of back-off delays slept
between consecutive attempts. -/
structure RetryResult (ε α : Type) where
  res : RetryRes ε α
  calls : Nat
  delays : List Nat
deriving DecidableEq, Repr

/-- The `for attempt in range(max_retries)` loop of `retry_on_error`.
`f i` is the outcome of the `i`-th invocation of the wrapped function;
`retryable e` is `isinstance(e, exceptions)`.  `remaining` is
`max_retries - attempt`, so `remaining = 1` is the
`attempt == max_retries - 1` case that re-raises.  A non-retryable
exception is not caught by the `except exceptions` clause and propagates
at once. -/
def retryLoop {ε α : Type} (retryable : ε → Bool) (baseDelay maxDelay : Nat)
    (f : Nat → Except ε α) (attempt remaining : Nat) : RetryResult ε α :=
  match remaining with
  | 0 => ⟨.noneReturn, 0, []⟩
  | r + 1 =>
    match f attempt with
    | .ok a => ⟨.ok a, 1, []⟩
    | .error e =>
      if retryable e then
        if r = 0 then ⟨.raised e, 1, []⟩
        else
          ⟨(retryLoop retryable baseDelay maxDelay f (attempt + 1) r).res,
            (retryLoop retryable baseDelay maxDelay f (attempt + 1) r).calls + 1,
            min (baseDelay * 2 ^ attempt) maxDelay ::
              (retryLoop retryable baseDelay maxDelay f (attempt + 1) r).delays⟩
      else ⟨.raised e, 1, []⟩

/-- Model of `retry_on_error(max_retries, exceptions, base_delay, max_delay)` applied
to a function whose `i`-th invocation yields `f i`. -/
def retryOnError {ε α : Type} (maxRetries : Nat) (retryable : ε → Bool)
    (baseDelay maxDelay : Nat) (f : Nat → Except ε α) : RetryResult ε α :=
  retryLoop retryable baseDelay maxDelay f 0 maxRetries

/-- Both exception kinds `get_sets` can raise are in the decorator's
default `exceptions = (aiohttp.ClientError, asyncio.TimeoutError)`. -/
def fetchErrRetryable : FetchErr → Bool := fun _ => true

/-! ## The retried `get_sets` (decorated with `@retry_on_error(max_retries=3)`) -/

/-- Result of a retried `get_sets` call: outcome, final state, total
outbound HTTP requests over all attempts, and number of attempts. -/
structure GetSetsRetryResult where
  res : RetryRes FetchErr (Option CacheVal)
  state : ClientState
  netCalls : Nat
  attempts : Nat
deriving DecidableEq, Repr

/-- The retry loop of the decorated `get_sets`, threading the client state
through the attempts.  `net i` is the network behaviour seen by attempt
`i`; both `FetchErr` kinds are retryable. -/
def getSetsRetryLoop (cfg : Config) (st : ClientState) (t : Int)
    (net : Nat → String → HttpResult) (pokemon generation tier : String)
    (attempt remaining : Nat) : GetSetsRetryResult :=
  match remaining with
  | 0 => ⟨.noneReturn, st, 0, 0⟩
  | r + 1 =>
    let g := getSets cfg st t (net attempt) pokemon generation tier
    match g.result with
    | .ok v => ⟨.ok v, g.state, g.networkCalls, 1⟩
    | .error e =>
      if r = 0 then ⟨.raised e, g.state, g.networkCalls, 1⟩
      else
        let rest := getSetsRetryLoop cfg g.state t net pokemon generation tier
          (attempt + 1) r
        ⟨rest.res, rest.state, g.networkCalls + rest.netCalls, rest.attempts + 1⟩

/-- Model of `SmogonAPIClient.get_sets` as called from outside: the body wrapped in
`@retry_on_error(max_retries=3)`. -/
def getSetsRetry (cfg : Config) (st : ClientState) (t : Int)
    (net : Nat → String → HttpResult) (pokemon generation tier : String) :
    GetSetsRetryResult :=
  getSetsRetryLoop cfg st t net pokemon generation tier 0 DEFAULT_RETRY_ATTEMPTS

/-! ## Format discovery and `find_pokemon_in_generation` -/

/-- Model of `SmogonAPIClient.discover_formats_for_generation`: serve from the
discovery cache while its (longer) TTL holds, otherwise probe the priority
formats and the remaining comprehensive formats with HEAD requests
(`head u = true` means status 200) and cache the discovered set.
`asyncio.gather` races the probes; the set of discovered formats does not
depend on completion order, so the probes are modelled in list order. -/
def discoverFormats (cfg : Config) (st : ClientState) (t : Int)
    (head : String → Bool) (generation : String) : List String × ClientState :=
  match lookupKey st.discoveredFormats generation with
  | some (fmts, ts) =>
    if t - ts < cfg.formatCacheTimeout then (fmts, st)
    else
      let remaining := cfg.comprehensiveFormats.filter
        (fun f => decide (f ∉ cfg.priorityFormats))
      let discovered := (cfg.priorityFormats ++ remaining).filter
        (fun f => head (generation ++ f))
      (discovered,
        { st with
          discoveredFormats := setKey st.discoveredFormats generation (discovered, t)
          formatDiscoveries := st.formatDiscoveries + 1 })
  | none =>
    let remaining := cfg.comprehensiveFormats.filter
      (fun f => decide (f ∉ cfg.priorityFormats))
    let discovered := (cfg.priorityFormats ++ remaining).filter
      (fun f => head (generation ++ f))
    (discovered,
      { st with
        discoveredFormats := setKey st.discoveredFormats generation (discovered, t)
        formatDiscoveries := st.formatDiscoveries + 1 })

/-- The `for tier in cached_tiers` loop of the cached-tier path of
`find_pokemon_in_generation`: `sets = await self.get_sets(...)` for each
tier (exceptions propagate), keeping the tiers whose result is truthy. -/
def fetchTiersLoop (cfg : Config) (st : ClientState) (t : Int)
    (net : String → HttpResult) (pokemon generation : String)
    (tiers : List String) :
    Except FetchErr (List (String × CacheVal)) × ClientState :=
  match tiers with
  | [] => (.ok [], st)
  | tier :: rest =>
    let g := getSetsRetry cfg st t (fun _ => net) pokemon generation tier
    match g.res with
    | .raised e => (.error e, g.state)
    | .noneReturn => fetchTiersLoop cfg g.state t net pokemon generation rest
    | .ok v =>
      match fetchTiersLoop cfg g.state t net pokemon generation rest with
      | (.error e, st2) => (.error e, st2)
      | (.ok acc, st2) =>
        match v with
        | some s => (.ok ((tier, s) :: acc), st2)
        | none => (.ok acc, st2)

/-- The probe over all discovered formats: each tier goes through
`_fetch_format`, which swallows every exception and returns `None`, so a
failed probe just contributes nothing. -/
def fetchFormatsLoop (cfg : Config) (st : ClientState) (t : Int)
    (net : String → HttpResult) (pokemon generation : String)
    (tiers : List String) : List (String × CacheVal) × ClientState :=
  match tiers with
  | [] => ([], st)
  | tier :: rest =>
    let g := getSetsRetry cfg st t (fun _ => net) pokemon generation tier
    let v : Option CacheVal :=
      match g.res with
      | .ok v => v
      | _ => none
    let rest' := fetchFormatsLoop cfg g.state t net pokemon generation rest
    (match v with
     | some s => (tier, s) :: rest'.1
     | none => rest'.1, rest'.2)

/-- Result of `find_pokemon_in_generation`: outcome (the map from tier to
sets data, or a propagated exception), final state, the tiers for which
`get_sets` was invoked, and whether the full discovery-and-probe path ran
(as opposed to the remembered-tier shortcut). -/
structure FindResult where
  result : Except FetchErr (List (String × CacheVal))
  state : ClientState
  probedTiers : List String
  didFullProbe : Bool
deriving DecidableEq, Repr

/-- The tier-location cache key `f"tier_location:{generation}:{pokemon}"`
(note: built from the raw, un-normalized arguments). -/
def tierLocationKey (pokemon generation : String) : String :=
  "tier_location:" ++ generation ++ ":" ++ pokemon

/-- The discovery-and-probe path of `find_pokemon_in_generation` (taken
when no truthy tier list is cached): discover the generation's formats,
probe each for the Pokémon, and, when anything was found, remember the
found tiers under `tierKey` via `_set_cache` — i.e. in the *main* value
cache, with the main cache's TTL. -/
def probeAllFormats (cfg : Config) (st1 : ClientState) (t : Int)
    (net : String → HttpResult) (head : String → Bool)
    (pokemon generation tierKey : String) : FindResult :=
  if ((discoverFormats cfg st1 t head generation).1).isEmpty then
    ⟨.ok [], (discoverFormats cfg st1 t head generation).2, [], true⟩
  else
    if ((fetchFormatsLoop cfg (discoverFormats cfg st1 t head generation).2 t net
        pokemon generation (discoverFormats cfg st1 t head generation).1).1).isEmpty then
      ⟨.ok (fetchFormatsLoop cfg (discoverFormats cfg st1 t head generation).2 t net
          pokemon generation (discoverFormats cfg st1 t head generation).1).1,
        (fetchFormatsLoop cfg (discoverFormats cfg st1 t head generation).2 t net
          pokemon generation (discoverFormats cfg st1 t head generation).1).2,
        (discoverFormats cfg st1 t head generation).1, true⟩
    else
      ⟨.ok (fetchFormatsLoop cfg (discoverFormats cfg st1 t head generation).2 t net
          pokemon generation (discoverFormats cfg st1 t head generation).1).1,
        setCache cfg
          (fetchFormatsLoop cfg (discoverFormats cfg st1 t head generation).2 t net
            pokemon generation (discoverFormats cfg st1 t head generation).1).2
          t tierKey
          (.tiers ((fetchFormatsLoop cfg (discoverFormats cfg st1 t head generation).2
            t net pokemon generation
            (discoverFormats cfg st1 t head generation).1).1.map Prod.fst)),
        (discoverFormats cfg st1 t head generation).1, true⟩

/-- Model of `SmogonAPIClient.find_pokemon_in_generation` at time `t`.  The cached
tier list is consulted through `_get_cached` (the main value cache); a
truthy (non-empty) list short-circuits the probe.  Only `tier_location:`
keys ever hold `CacheVal.tiers` values, so on states reachable through the
client a hit for `tierKey` is always a `.tiers` value (a `.sets` hit would
make Python iterate the dict's keys; the model routes this unreachable
case through the probe path). -/
def findPokemonInGeneration (cfg : Config) (st : ClientState) (t : Int)
    (net : String → HttpResult) (head : String → Bool)
    (pokemon generation : String) : FindResult :=
  match getCached cfg st t (tierLocationKey pokemon generation) with
  | (some (.tiers (tier0 :: restTiers)), st1) =>
    match fetchTiersLoop cfg st1 t net pokemon generation (tier0 :: restTiers) with
    | (.error e, st2) => ⟨.error e, st2, tier0 :: restTiers, false⟩
    | (.ok found, st2) => ⟨.ok found, st2, tier0 :: restTiers, false⟩
  | (_, st1) =>
    probeAllFormats cfg st1 t net head pokemon generation
      (tierLocationKey pokemon generation)

/-! ## `CircuitBreaker` (`src/utils/decorators.py`) -/

/-- The three values of `CircuitBreaker.state`. -/
inductive BreakerState where
  | closed : BreakerState
  | opened : BreakerState
  | halfOpen : BreakerState
deriving DecidableEq, Repr

/-- A `CircuitBreaker` instance: configuration plus mutable state.
`lastFailureTime` starts as `None`. -/
structure Breaker where
  failureThreshold : Nat
  recoveryTimeout : Int
  failureCount : Nat
  lastFailureTime : Option Int
  state : BreakerState
deriving DecidableEq, Repr

/-- Model of `CircuitBreaker.__init__(failure_threshold, recovery_timeout)`. -/
def Breaker.init (threshold : Nat) (recovery : Int) : Breaker :=
  { failureThreshold := threshold
    recoveryTimeout := recovery
    failureCount := 0
    lastFailureTime := none
    state := .closed }

/-- What the wrapped function does when invoked: returns normally or raises
an exception matched by `expected_exception` (the default is `Exception`,
which matches everything the wrapper can see). -/
inductive CallOutcome where
  | success : CallOutcome
  | failure : CallOutcome
deriving DecidableEq, Repr

/-- One call through the breaker-wrapped function. -/
structure BreakerStep where
  breaker : Breaker
  invoked : Bool
  raised : Bool
  fastFailed : Bool
deriving DecidableEq, Repr

/-- The `try`/`except` part of the `wrapper` produced by
`CircuitBreaker.__call__` (after the open-state check), invoking the
wrapped function on breaker state `b1`: a success closes a half-open
breaker and resets its count (and changes nothing otherwise); a failure
matched by `expected_exception` increments the count, records the failure
time, opens the breaker when the count reaches the threshold, and
re-raises. -/
def Breaker.run (b1 : Breaker) (t : Int) (outcome : CallOutcome) : BreakerStep :=
  match outcome with
  | .success =>
    if b1.state = .halfOpen then
      ⟨{ b1 with state := .closed, failureCount := 0 }, true, false, false⟩
    else ⟨b1, true, false, false⟩
  | .failure =>
    if b1.failureThreshold ≤ b1.failureCount + 1 then
      ⟨{ b1 with
          failureCount := b1.failureCount + 1
          lastFailureTime := some t
          state := .opened }, true, true, false⟩
    else
      ⟨{ b1 with
          failureCount := b1.failureCount + 1
          lastFailureTime := some t }, true, true, false⟩

/-- One call of the `wrapper` produced by `CircuitBreaker.__call__` at time
`t`, where the wrapped function would produce `outcome`.  While open and
within the recovery timeout the wrapper raises without invoking the
function (`fastFailed`).  When open, `last_failure_time` is always set on
reachable breakers (`Breaker.Inv` below); Python would raise `TypeError`
on `None`, the model reads `getD 0`. -/
def Breaker.call (b : Breaker) (t : Int) (outcome : CallOutcome) : BreakerStep :=
  match b.state with
  | .opened =>
    if b.recoveryTimeout ≤ t - (b.lastFailureTime.getD 0) then
      Breaker.run { b with state := .halfOpen } t outcome
    else ⟨b, false, true, true⟩
  | _ => Breaker.run b t outcome

/-- Invariant of reachable breakers: whenever the breaker is open or
half-open, the failure count has reached the threshold and a failure time
is recorded. -/
def Breaker.Inv (b : Breaker) : Prop :=
  (b.state = .opened ∨ b.state = .halfOpen) →
    b.failureThreshold ≤ b.failureCount ∧ b.lastFailureTime.isSome

/-! ## Disk persistence (`_save_cache_to_disk` / `_load_cache_from_disk`) -/

/-- The pickled `save_data` dictionary: a snapshot of the value cache and
of the discovery cache. -/
structure SaveData where
  cache : List (String × CacheVal × Int)
  discoveredFormats : List (String × List String × Int)
deriving DecidableEq, Repr

/-- Model of `SmogonAPIClient._save_cache_to_disk`: pickles `dict(self.cache)` and
`dict(self.discovered_formats)` as they are — no expiry filtering. -/
def saveCacheToDisk (st : ClientState) : SaveData :=
  { cache := st.cache, discoveredFormats := st.discoveredFormats }

/-- The cache-persisting part of `SmogonAPIClient.close`: when
`CACHE_PERSIST_TO_DISK` is set (it is, in `config/settings.py`), write the
snapshot; the model returns the written file, `none` when persistence is
off. -/
def closeClient (persistToDisk : Bool) (st : ClientState) : Option SaveData :=
  if persistToDisk then some (saveCacheToDisk st) else none

/-- Model of `SmogonAPIClient._load_cache_from_disk` at load time `t`: with no cache
file the state is untouched; otherwise every saved entry still within its
TTL relative to `t` is admitted (`self.cache[key] = (data, timestamp)` in
the file's order) and expired entries are discarded; same for the
discovery cache with its own TTL. -/
def loadCacheFromDisk (cfg : Config) (st : ClientState) (t : Int)
    (file : Option SaveData) : ClientState :=
  match file with
  | none => st
  | some d =>
    { st with
      cache := d.cache.foldl
        (fun c e => if t - e.2.2 < cfg.cacheTimeout then setKey c e.1 e.2 else c)
        st.cache
      discoveredFormats := d.discoveredFormats.foldl
        (fun m e => if t - e.2.2 < cfg.formatCacheTimeout then setKey m e.1 e.2 else m)
        st.discoveredFormats }

/-! ## Helper lemmas on the `OrderedDict` model -/

theorem lookupKey_eq_none_iff {α : Type} (c : List (String × α)) (k : String) :
    lookupKey c k = none ↔ k ∉ c.map Prod.fst := by
  induction c with
  | nil => simp [lookupKey]
  | cons e rest ih =>
    rw [lookupKey]
    by_cases h : e.1 = k
    · simp [h]
    · rw [if_neg h, ih]
      simp only [List.map_cons, List.mem_cons, not_or]
      constructor
      · intro hn
        exact ⟨fun hk => h hk.symm, hn⟩
      · exact fun hn => hn.2

theorem lookupKey_isSome_iff {α : Type} (c : List (String × α)) (k : String) :
    (lookupKey c k).isSome ↔ k ∈ c.map Prod.fst := by
  rw [← Decidable.not_iff_not, ← lookupKey_eq_none_iff]
  cases lookupKey c k <;> simp

theorem lookupKey_mem {α : Type} {c : List (String × α)} {k : String} {v : α}
    (h : lookupKey c k = some v) : (k, v) ∈ c := by
  induction c with
  | nil => simp [lookupKey] at h
  | cons e rest ih =>
    by_cases he : e.1 = k
    · rw [lookupKey, if_pos he] at h
      cases h
      subst he
      exact List.mem_cons_self e rest
    · rw [lookupKey, if_neg he] at h
      exact List.mem_cons_of_mem _ (ih h)

theorem lookupKey_eraseKey_self {α : Type} (c : List (String × α)) (k : String) :
    lookupKey (eraseKey c k) k = none := by
  rw [lookupKey_eq_none_iff]
  intro hmem
  rcases List.mem_map.mp hmem with ⟨e, he, hk⟩
  rcases List.mem_filter.mp he with ⟨_, hne⟩
  exact (of_decide_eq_true hne) hk

theorem eraseKey_eraseKey {α : Type} (c : List (String × α)) (k : String) :
    eraseKey (eraseKey c k) k = eraseKey c k := by
  simp [eraseKey, List.filter_filter]

theorem eraseKey_of_lookup_none {α : Type} {c : List (String × α)} {k : String}
    (h : lookupKey c k = none) : eraseKey c k = c := by
  rw [lookupKey_eq_none_iff] at h
  apply List.filter_eq_self.mpr
  intro e he
  refine decide_eq_true ?_
  intro hk
  exact h (List.mem_map.mpr ⟨e, he, hk⟩)

theorem length_eraseKey_le {α : Type} (c : List (String × α)) (k : String) :
    (eraseKey c k).length ≤ c.length :=
  List.length_filter_le _ _

theorem length_eraseKey_lt {α : Type} {c : List (String × α)} {k : String} {v : α}
    (h : lookupKey c k = some v) : (eraseKey c k).length < c.length := by
  induction c with
  | nil => simp [lookupKey] at h
  | cons e rest ih =>
    by_cases he : e.1 = k
    · have : eraseKey (e :: rest) k = eraseKey rest k := by
        simp [eraseKey, List.filter_cons, he]
      rw [this]
      exact Nat.lt_succ_of_le (length_eraseKey_le rest k)
    · rw [lookupKey, if_neg he] at h
      have : eraseKey (e :: rest) k = e :: eraseKey rest k := by
        simp [eraseKey, List.filter_cons, he]
      rw [this]
      simpa using ih h

theorem lookupKey_setKey_self {α : Type} (c : List (String × α)) (k : String) (v : α) :
    lookupKey (setKey c k v) k = some v := by
  induction c with
  | nil => simp [setKey, lookupKey]
  | cons e rest ih =>
    by_cases he : e.1 = k
    · simp [setKey, he, lookupKey]
    · simp [setKey, he, lookupKey, ih]

theorem setKey_of_not_mem {α : Type} {c : List (String × α)} {k : String}
    (h : k ∉ c.map Prod.fst) (v : α) : setKey c k v = c ++ [(k, v)] := by
  induction c with
  | nil => simp [setKey]
  | cons e rest ih =>
    simp only [List.map_cons, List.mem_cons, not_or] at h
    rw [setKey, if_neg (fun he => h.1 he.symm), ih h.2]
    simp

theorem length_setKey {α : Type} (c : List (String × α)) (k : String) (v : α) :
    (setKey c k v).length ≤ c.length + 1 := by
  induction c with
  | nil => simp [setKey]
  | cons e rest ih =>
    by_cases he : e.1 = k
    · simp [setKey, he]
    · simp only [setKey, if_neg he, List.length_cons]
      exact Nat.succ_le_succ ih

theorem evictWhileFull_eq_drop {α : Type} (m : Nat)
    (c : List (String × α)) : evictWhileFull m c = c.drop (c.length + 1 - m) := by
  induction c with
  | nil => simp [evictWhileFull]
  | cons e rest ih =>
    by_cases h : m ≤ (e :: rest).length
    · rw [evictWhileFull, if_pos h, ih]
      have h1 : (e :: rest).length + 1 - m = (rest.length + 1 - m) + 1 := by
        simp only [List.length_cons] at h ⊢
        omega
      rw [h1, List.drop_succ_cons]
    · rw [evictWhileFull, if_neg h]
      have : (e :: rest).length + 1 - m = 0 := by
        simp only [List.length_cons] at h ⊢
        omega
      rw [this, List.drop_zero]

theorem length_evictWhileFull_lt {α : Type} (m : Nat) (hm : 1 ≤ m)
    (c : List (String × α)) : (evictWhileFull m c).length < m := by
  rw [evictWhileFull_eq_drop m, List.length_drop]
  omega

/-! ## Behaviour of `_get_cached` and the fetch path -/

theorem getCached_fresh (cfg : Config) (st : ClientState) (t : Int) (key : String)
    {v : CacheVal} {ts : Int} (hl : lookupKey st.cache key = some (v, ts))
    (hfresh : t - ts < cfg.cacheTimeout) :
    getCached cfg st t key =
      (some v,
        { st with
          cache := eraseKey st.cache key ++ [(key, v, ts)]
          cacheHits := st.cacheHits + 1 }) := by
  simp [getCached, hl, hfresh, moveToEnd]

theorem getCached_expired (cfg : Config) (st : ClientState) (t : Int) (key : String)
    {v : CacheVal} {ts : Int} (hl : lookupKey st.cache key = some (v, ts))
    (hexp : cfg.cacheTimeout ≤ t - ts) :
    getCached cfg st t key =
      (none,
        { st with
          cache := eraseKey st.cache key
          cacheMisses := st.cacheMisses + 1 }) := by
  simp [getCached, hl, not_lt.mpr hexp]

theorem getCached_absent (cfg : Config) (st : ClientState) (t : Int) (key : String)
    (hl : lookupKey st.cache key = none) :
    getCached cfg st t key = (none, { st with cacheMisses := st.cacheMisses + 1 }) := by
  simp [getCached, hl]

theorem getSetsFetch_networkCalls (cfg : Config) (st : ClientState) (t : Int)
    (net : String → HttpResult) (q formatId cacheKey : String) :
    (getSetsFetch cfg st t net q formatId cacheKey).networkCalls = 1 := by
  unfold getSetsFetch
  split <;> first | rfl | (split <;> first | rfl | (split <;> rfl))

theorem getSetsFetch_counters (cfg : Config) (st : ClientState) (t : Int)
    (net : String → HttpResult) (q formatId cacheKey : String) :
    (getSetsFetch cfg st t net q formatId cacheKey).state.cacheMisses = st.cacheMisses ∧
    (getSetsFetch cfg st t net q formatId cacheKey).state.cacheHits = st.cacheHits := by
  unfold getSetsFetch
  split <;>
    first
      | exact ⟨rfl, rfl⟩
      | (split <;>
          first
            | exact ⟨rfl, rfl⟩
            | (split <;> exact ⟨rfl, rfl⟩))

/-- C1: TTL correctness of cache lookup.  With `ck` the cache key of the
request: (1) a fresh entry `(v, ts)` (`t - ts < TTL`) makes `get_sets`
return `v` with no network call, a hit recorded, and `ck` re-inserted at
the most-recently-used end; (2) an expired entry (`t - ts ≥ TTL`) is
physically deleted, a miss is recorded, the whole call behaves exactly as
if the key were absent, and exactly one network request is performed;
(3) an absent key likewise records a miss and performs exactly one network
request. -/
theorem ttl_correctness (cfg : Config) (st : ClientState) (t : Int)
    (net : String → HttpResult) (pokemon generation tier : String) :
    (∀ v ts, lookupKey st.cache (mkCacheKey pokemon generation tier) = some (v, ts) →
      t - ts < cfg.cacheTimeout →
      getSets cfg st t net pokemon generation tier =
        ⟨.ok (some v),
          { st with
            cache := eraseKey st.cache (mkCacheKey pokemon generation tier) ++
              [(mkCacheKey pokemon generation tier, v, ts)]
            cacheHits := st.cacheHits + 1 }, 0⟩) ∧
    (∀ v ts, lookupKey st.cache (mkCacheKey pokemon generation tier) = some (v, ts) →
      cfg.cacheTimeout ≤ t - ts →
      lookupKey (getCached cfg st t (mkCacheKey pokemon generation tier)).2.cache
          (mkCacheKey pokemon generation tier) = none ∧
      (getCached cfg st t (mkCacheKey pokemon generation tier)).2.cacheMisses =
        st.cacheMisses + 1 ∧
      getSets cfg st t net pokemon generation tier =
        getSets cfg
          { st with cache := eraseKey st.cache (mkCacheKey pokemon generation tier) }
          t net pokemon generation tier ∧
      (getSets cfg st t net pokemon generation tier).networkCalls = 1) ∧
    (lookupKey st.cache (mkCacheKey pokemon generation tier) = none →
      (getSets cfg st t net pokemon generation tier).networkCalls = 1 ∧
      (getSets cfg st t net pokemon generation tier).state.cacheMisses =
        st.cacheMisses + 1) := by
  refine ⟨fun v ts hl hfresh => ?_, fun v ts hl hexp => ?_, fun hl => ?_⟩
  · rw [getSets, getCached_fresh cfg st t _ hl hfresh]
  · have hdel := getCached_expired cfg st t _ hl hexp
    refine ⟨?_, ?_, ?_, ?_⟩
    · rw [hdel]
      exact lookupKey_eraseKey_self _ _
    · rw [hdel]
    · rw [getSets, getSets, hdel,
        getCached_absent cfg _ t _ (lookupKey_eraseKey_self _ _)]
    · rw [getSets, hdel]
      exact getSetsFetch_networkCalls _ _ _ _ _ _ _
  · have habs := getCached_absent cfg st t _ hl
    constructor
    · rw [getSets, habs]
      exact getSetsFetch_networkCalls _ _ _ _ _ _ _
    · rw [getSets, habs]
      exact (getSetsFetch_counters _ _ _ _ _ _ _).1

/-- Witness for C1 at concrete inputs: a fresh hit at `t = 30`, the expired
case at `t = 60`, and the absent case, for an entry stored at time `0`
under key `"gen9ou:garchomp"`. -/
theorem ttl_correctness_witness :
    (getSets defaultConfig
      { ClientState.initial with cache := [("gen9ou:garchomp", .sets 5, 0)] } 30
      (fun _ => .notFound) "garchomp" "gen9" "ou" =
      ⟨.ok (some (.sets 5)),
        { ClientState.initial with
          cache := [("gen9ou:garchomp", CacheVal.sets 5, 0)]
          cacheHits := 1 }, 0⟩) ∧
    (getSets defaultConfig
      { ClientState.initial with cache := [("gen9ou:garchomp", .sets 5, 0)] } 60
      (fun _ => .notFound) "garchomp" "gen9" "ou").networkCalls = 1 := by
  constructor
  · have h := (ttl_correctness defaultConfig
      { ClientState.initial with cache := [("gen9ou:garchomp", .sets 5, 0)] } 30
      (fun _ => .notFound) "garchomp" "gen9" "ou").1 (.sets 5) 0 (by decide) (by decide)
    rw [h]
    decide
  · exact ((ttl_correctness defaultConfig
      { ClientState.initial with cache := [("gen9ou:garchomp", .sets 5, 0)] } 60
      (fun _ => .notFound) "garchomp" "gen9" "ou").2.1 (.sets 5) 0 (by decide)
        (by decide)).2.2.2

/-! ## LRU size bound (C2) -/

/-- A sequence of `_set_cache` inserts at time `t` (the spec's
"inserting `maxSize + k` distinct keys with no expiry in between"). -/
def insertAll (cfg : Config) (st : ClientState) (t : Int)
    (kvs : List (String × CacheVal)) : ClientState :=
  kvs.foldl (fun s kv => setCache cfg s t kv.1 kv.2) st

theorem insertAll_cache (cfg : Config) (st : ClientState) (t : Int)
    (kvs : List (String × CacheVal)) :
    (insertAll cfg st t kvs).cache =
      kvs.foldl (fun c kv => setKey (evictWhileFull cfg.maxCacheSize c) kv.1 (kv.2, t))
        st.cache := by
  unfold insertAll
  induction kvs generalizing st with
  | nil => rfl
  | cons kv rest ih =>
    rw [List.foldl_cons, List.foldl_cons]
    exact ih (setCache cfg st t kv.1 kv.2)

theorem foldIns_keys (m : Nat) (hm : 1 ≤ m) (t : Int)
    (kvs : List (String × CacheVal)) (hnd : (kvs.map Prod.fst).Nodup) :
    (kvs.foldl (fun c kv => setKey (evictWhileFull m c) kv.1 (kv.2, t))
        ([] : List (String × CacheVal × Int))).map Prod.fst =
      (kvs.map Prod.fst).drop (kvs.length - m) := by
  induction kvs using List.reverseRecOn with
  | nil => simp
  | append_singleton l a ih =>
    rw [List.map_append] at hnd
    have hnd' : (l.map Prod.fst).Nodup := hnd.of_append_left
    have hmem_a : a.1 ∉ l.map Prod.fst := by
      have hdisj := List.disjoint_of_nodup_append hnd
      intro hx
      exact hdisj hx (by simp)
    have hkeys := ih hnd'
    rw [List.foldl_append, List.foldl_cons, List.foldl_nil]
    have hlenC :
        (l.foldl (fun c kv => setKey (evictWhileFull m c) kv.1 (kv.2, t))
          ([] : List (String × CacheVal × Int))).length = min l.length m := by
      have hlen := congrArg List.length hkeys
      rw [List.length_map, List.length_drop, List.length_map] at hlen
      omega
    have hnotmem :
        a.1 ∉ (evictWhileFull m
          (l.foldl (fun c kv => setKey (evictWhileFull m c) kv.1 (kv.2, t))
            ([] : List (String × CacheVal × Int)))).map Prod.fst := by
      rw [evictWhileFull_eq_drop, List.map_drop, hkeys]
      intro hx
      exact hmem_a (List.drop_subset _ _ (List.drop_subset _ _ hx))
    rw [setKey_of_not_mem hnotmem, List.map_append, evictWhileFull_eq_drop,
      List.map_drop, hkeys, List.drop_drop, hlenC]
    have hidx : l.length - m + (l.length ⊓ m + 1 - m) = (l ++ [a]).length - m := by
      rw [List.length_append]
      simp only [List.length_cons, List.length_nil]
      omega
    rw [hidx, List.map_append]
    have hle : (l ++ [a]).length - m ≤ (l.map Prod.fst).length := by
      rw [List.length_map, List.length_append]
      simp only [List.length_cons, List.length_nil]
      omega
    rw [List.drop_append_of_le_length hle]
    simp

theorem length_foldl_setKey_le {β : Type} (p : String × β → Prop) [DecidablePred p]
    (l : List (String × β)) :
    ∀ c : List (String × β),
      (l.foldl (fun c e => if p e then setKey c e.1 e.2 else c) c).length ≤
        c.length + l.length := by
  induction l with
  | nil => intro c; simp
  | cons e rest ih =>
    intro c
    rw [List.foldl_cons]
    by_cases hp : p e
    · rw [if_pos hp]
      have h1 := ih (setKey c e.1 e.2)
      have h2 := length_setKey c e.1 e.2
      simp only [List.length_cons]
      omega
    · rw [if_neg hp]
      have h1 := ih c
      simp only [List.length_cons]
      omega

/-- C2: LRU size bound.  Every operation keeps `len(cache) ≤ maxSize`:
`_set_cache` evicts the least-recently-used entries (front of the order)
before inserting, `_get_cached`, the cleanup sweep and `clear_cache` never
grow the cache, and loading a file produced by `_save_cache_to_disk` adds
at most the saved entries.  Moreover, after inserting `maxSize + k`
distinct keys (`k ≥ 1`) into an empty cache with no expiry in between, the
size is exactly `maxSize`, the surviving keys are the last `maxSize`
inserted (in LRU order), and the `k` least-recently-used keys are
absent. -/
theorem lru_size_bound (cfg : Config) (st : ClientState) (t : Int) (key : String)
    (v : CacheVal) :
    (1 ≤ cfg.maxCacheSize →
      (setCache cfg st t key v).cache.length ≤ cfg.maxCacheSize) ∧
    ((getCached cfg st t key).2.cache.length ≤ st.cache.length) ∧
    ((cleanupExpiredCache cfg st t).cache.length ≤ st.cache.length) ∧
    ((clearCache st).cache.length = 0) ∧
    (∀ st2 : ClientState,
      (loadCacheFromDisk cfg st t (some (saveCacheToDisk st2))).cache.length ≤
        st.cache.length + st2.cache.length) ∧
    (∀ (kvs : List (String × CacheVal)) (kk : Nat), 1 ≤ cfg.maxCacheSize →
      (kvs.map Prod.fst).Nodup → kvs.length = cfg.maxCacheSize + kk → 1 ≤ kk →
      st.cache = [] →
      (insertAll cfg st t kvs).cache.length = cfg.maxCacheSize ∧
      (insertAll cfg st t kvs).cache.map Prod.fst = (kvs.map Prod.fst).drop kk ∧
      ∀ x ∈ (kvs.map Prod.fst).take kk,
        lookupKey (insertAll cfg st t kvs).cache x = none) := by
  refine ⟨fun hm => ?_, ?_, ?_, rfl, fun st2 => ?_, fun kvs kk hm hnd hlen hk hempty => ?_⟩
  · have h1 := length_setKey (evictWhileFull cfg.maxCacheSize st.cache) key (v, t)
    have h2 := length_evictWhileFull_lt cfg.maxCacheSize hm st.cache
    calc (setCache cfg st t key v).cache.length
        = (setKey (evictWhileFull cfg.maxCacheSize st.cache) key (v, t)).length := rfl
      _ ≤ cfg.maxCacheSize := by omega
  · rcases hl : lookupKey st.cache key with _ | ⟨v0, ts⟩
    · rw [getCached_absent cfg st t key hl]
    · by_cases hf : t - ts < cfg.cacheTimeout
      · rw [getCached_fresh cfg st t key hl hf]
        have := length_eraseKey_lt hl
        simp only [List.length_append, List.length_cons, List.length_nil]
        omega
      · rw [getCached_expired cfg st t key hl (not_lt.mp hf)]
        exact length_eraseKey_le st.cache key
  · exact List.length_filter_le _ _
  · simp only [loadCacheFromDisk, saveCacheToDisk]
    exact length_foldl_setKey_le (fun e => t - e.2.2 < cfg.cacheTimeout)
      st2.cache st.cache
  · have hkeys :
        (insertAll cfg st t kvs).cache.map Prod.fst =
          (kvs.map Prod.fst).drop kk := by
      rw [insertAll_cache, hempty, foldIns_keys cfg.maxCacheSize hm t kvs hnd]
      congr 1
      omega
    refine ⟨?_, hkeys, fun x hx => ?_⟩
    · have := congrArg List.length hkeys
      rw [List.length_map, List.length_drop, List.length_map] at this
      omega
    · rw [lookupKey_eq_none_iff, hkeys]
      exact fun hmem => (List.disjoint_take_drop hnd rfl.le) hx hmem

/-- Witness for C2: the spec's concrete scenario shape — `maxSize = 2`,
inserting the three distinct keys `A`, `B`, `C` into an empty cache leaves
`{B, C}` with `A` evicted; plus the `setCache` bound at `maxSize = 2`. -/
theorem lru_size_bound_witness :
    (insertAll { defaultConfig with maxCacheSize := 2 } ClientState.initial 0
        [("A", .sets 1), ("B", .sets 2), ("C", .sets 3)]).cache.map Prod.fst =
      ["B", "C"] ∧
    lookupKey (insertAll { defaultConfig with maxCacheSize := 2 }
        ClientState.initial 0
        [("A", .sets 1), ("B", .sets 2), ("C", .sets 3)]).cache "A" = none := by
  have h := (lru_size_bound { defaultConfig with maxCacheSize := 2 }
    ClientState.initial 0 "A" (.sets 1)).2.2.2.2.2
    [("A", .sets 1), ("B", .sets 2), ("C", .sets 3)] 1
    (by decide) (by decide) (by decide) (by decide) rfl
  refine ⟨?_, ?_⟩
  · rw [h.2.1]
    decide
  · exact h.2.2 "A" (by decide)

/-! ## Retry with exponential backoff (C3) -/

theorem retryLoop_success {ε α : Type} (retryable : ε → Bool) (bd md : Nat)
    (f : Nat → Except ε α) (v : α) :
    ∀ (n a r : Nat), n < r →
      (∀ i, i < n → ∃ e, f (a + i) = .error e ∧ retryable e = true) →
      f (a + n) = .ok v →
      retryLoop retryable bd md f a r =
        ⟨.ok v, n + 1, (List.range n).map (fun i => min (bd * 2 ^ (a + i)) md)⟩ := by
  intro n
  induction n with
  | zero =>
    intro a r hr hfail hok
    match r, hr with
    | r' + 1, _ =>
      rw [Nat.add_zero] at hok
      rw [retryLoop, hok]
      simp
  | succ n ih =>
    intro a r hr hfail hok
    match r, hr with
    | r' + 1, hr =>
      obtain ⟨e, he, hret⟩ := hfail 0 (Nat.succ_pos n)
      rw [Nat.add_zero] at he
      have hr' : ¬ r' = 0 := by omega
      have hrec := ih (a + 1) r' (by omega)
        (fun i hi => by
          have h := hfail (i + 1) (by omega)
          rwa [show a + (i + 1) = a + 1 + i by omega] at h)
        (by rw [show a + 1 + n = a + (n + 1) by omega]; exact hok)
      rw [retryLoop, he]
      simp only [hret, if_true, if_neg hr', hrec]
      have h1 : (List.range (n + 1)).map (fun i => min (bd * 2 ^ (a + i)) md) =
          min (bd * 2 ^ a) md ::
            (List.range n).map (fun i => min (bd * 2 ^ (a + 1 + i)) md) := by
        rw [List.range_succ_eq_map, List.map_cons, List.map_map]
        refine congrArg₂ _ (by simp) ?_
        refine List.map_congr_left (fun i _ => ?_)
        simp only [Function.comp_apply, Nat.succ_eq_add_one]
        rw [show a + (i + 1) = a + 1 + i by omega]
      rw [h1]

theorem retryLoop_exhaust {ε α : Type} (retryable : ε → Bool) (bd md : Nat)
    (f : Nat → Except ε α) (es : Nat → ε) :
    ∀ (r a : Nat), 1 ≤ r →
      (∀ i, i < r → f (a + i) = .error (es (a + i)) ∧ retryable (es (a + i)) = true) →
      (retryLoop retryable bd md f a r).res = .raised (es (a + r - 1)) ∧
      (retryLoop retryable bd md f a r).calls = r := by
  intro r
  induction r with
  | zero => intro a h; omega
  | succ r' ih =>
    intro a _ hfail
    obtain ⟨he, hret⟩ := hfail 0 (Nat.succ_pos r')
    rw [Nat.add_zero] at he hret
    by_cases h0 : r' = 0
    · subst h0
      rw [retryLoop, he]
      simp [hret]
    · have hrec := ih (a + 1) (by omega)
        (fun i hi => by
          have h := hfail (i + 1) (by omega)
          rwa [show a + (i + 1) = a + 1 + i by omega] at h)
      rw [retryLoop, he]
      simp only [hret, if_true, if_neg h0]
      refine ⟨?_, ?_⟩
      · rw [show a + (r' + 1) - 1 = a + 1 + r' - 1 by omega]
        exact hrec.1
      · rw [hrec.2]

/-- C3: retry with exponential backoff.  (1) If the wrapped operation
raises a retryable exception on its first `n` attempts (`n < max_retries`)
and succeeds on attempt `n + 1`, the wrapper returns the successful value,
invokes the operation exactly `n + 1` times, and sleeps
`min(base_delay * 2^attempt, max_delay)` between consecutive attempts — a
non-decreasing sequence capped at `max_delay`.  (2) If all `max_retries`
attempts raise retryable exceptions, the last exception is propagated and
the operation was invoked exactly `max_retries` times. -/
theorem retry_backoff {ε α : Type} (retryable : ε → Bool) (bd md maxRetries : Nat)
    (f : Nat → Except ε α) :
    (∀ (n : Nat) (v : α), n < maxRetries →
      (∀ i, i < n → ∃ e, f i = .error e ∧ retryable e = true) →
      f n = .ok v →
      retryOnError maxRetries retryable bd md f =
        ⟨.ok v, n + 1, (List.range n).map (fun i => min (bd * 2 ^ i) md)⟩ ∧
      List.Pairwise (· ≤ ·) ((retryOnError maxRetries retryable bd md f).delays) ∧
      ∀ d ∈ (retryOnError maxRetries retryable bd md f).delays, d ≤ md) ∧
    (∀ es : Nat → ε, 1 ≤ maxRetries →
      (∀ i, i < maxRetries → f i = .error (es i) ∧ retryable (es i) = true) →
      (retryOnError maxRetries retryable bd md f).res = .raised (es (maxRetries - 1)) ∧
      (retryOnError maxRetries retryable bd md f).calls = maxRetries) := by
  constructor
  · intro n v hn hfail hok
    have h := retryLoop_success retryable bd md f v n 0 maxRetries hn
      (fun i hi => by simpa using hfail i hi) (by simpa using hok)
    have heq : retryOnError maxRetries retryable bd md f =
        ⟨.ok v, n + 1, (List.range n).map (fun i => min (bd * 2 ^ i) md)⟩ := by
      rw [retryOnError, h]
      refine congrArg _ (List.map_congr_left (fun i _ => ?_))
      rw [Nat.zero_add]
    refine ⟨heq, ?_, ?_⟩
    · rw [heq]
      refine List.Pairwise.map _ (fun i j hij => ?_) (List.pairwise_lt_range n)
      exact min_le_min
        (Nat.mul_le_mul_left bd (Nat.pow_le_pow_right (by omega) (le_of_lt hij)))
        (le_refl md)
    · rw [heq]
      intro d hd
      rcases List.mem_map.mp hd with ⟨i, _, hdi⟩
      rw [← hdi]
      exact min_le_right _ _
  · intro es hmr hfail
    have h := retryLoop_exhaust retryable bd md f es maxRetries 0 hmr
      (fun i hi => by simpa using hfail i hi)
    rw [retryOnError]
    rw [Nat.zero_add] at h
    exact h

/-- Witness for C3: an operation failing retryably on attempts 0 and 1 and
succeeding on attempt 2, with `max_retries = 3`, `base_delay = 1`,
`max_delay = 10`: value 42 returned, 3 invocations, delays `[1, 2]`; and
an always-failing operation propagates the exception of the last attempt
after exactly 3 invocations. -/
theorem retry_backoff_witness :
    retryOnError 3 (fun _ : Nat => true) 1 10
        (fun i => if i < 2 then .error i else .ok 42) =
      ⟨.ok 42, 3, [1, 2]⟩ ∧
    (retryOnError 3 (fun _ : Nat => true) 1 10
        (fun i : Nat => (.error i : Except Nat Nat))).res = .raised 2 := by
  constructor
  · have h := (retry_backoff (fun _ : Nat => true) 1 10 3
      (fun i => if i < 2 then .error i else .ok 42)).1 2 42 (by omega)
      (fun i hi => ⟨i, by simp [hi], rfl⟩) (by simp)
    exact h.1.trans (by decide)
  · have h := (retry_backoff (fun _ : Nat => true) 1 10 3
      (fun i : Nat => (.error i : Except Nat Nat))).2 (fun i => i) (by omega)
      (fun i _ => ⟨rfl, rfl⟩)
    exact h.1

/-! ## Not-found vs transient errors (C4) and decode errors (C5) -/

theorem getSetsRetryLoop_ok (cfg : Config) (st : ClientState) (t : Int)
    (net : Nat → String → HttpResult) (pokemon generation tier : String)
    (a r : Nat) {v : Option CacheVal}
    (h : (getSets cfg st t (net a) pokemon generation tier).result = .ok v) :
    getSetsRetryLoop cfg st t net pokemon generation tier a (r + 1) =
      ⟨.ok v, (getSets cfg st t (net a) pokemon generation tier).state,
        (getSets cfg st t (net a) pokemon generation tier).networkCalls, 1⟩ := by
  rw [getSetsRetryLoop]
  split
  · next v' heq => rw [h] at heq; cases heq; rfl
  · next e heq => rw [h] at heq; cases heq

/-- C4 counterexample: with the cache empty and the upstream answering
HTTP 500 (a 5xx-equivalent), the retried `get_sets` makes exactly one
attempt and one network call and returns `None` (an absent result) — the
5xx is neither retried per the backoff policy nor propagated as an error,
refuting the claim's second half. -/
theorem not_found_vs_error_counterexample :
    (getSetsRetry defaultConfig ClientState.initial 0
      (fun _ _ => .serverError 500) "garchomp" "gen9" "ou").res =
        .ok none ∧
    (getSetsRetry defaultConfig ClientState.initial 0
      (fun _ _ => .serverError 500) "garchomp" "gen9" "ou").attempts = 1 ∧
    (getSetsRetry defaultConfig ClientState.initial 0
      (fun _ _ => .serverError 500) "garchomp" "gen9" "ou").netCalls = 1 := by
  decide

/-- C4 amended: on a cache miss, an upstream 404 makes `get_sets` return an
absent result (`None`) without raising, while a timeout raises a
`FetchErr` — the two take different paths; but a 5xx-equivalent response
is *also* returned as absent (`None`) without raising and without
retrying: only connection errors and timeouts raise and hence reach the
retry policy. -/
theorem not_found_vs_error_amended (cfg : Config) (st : ClientState) (t : Int)
    (pokemon generation tier : String)
    (hmiss : lookupKey st.cache (mkCacheKey pokemon generation tier) = none) :
    ((getSets cfg st t (fun _ => .notFound) pokemon generation tier).result =
      .ok none) ∧
    ((getSets cfg st t (fun _ => .timeout) pokemon generation tier).result =
      .error .timeout) ∧
    (∀ code, (getSets cfg st t (fun _ => .serverError code)
      pokemon generation tier).result = .ok none) ∧
    (∀ code, (getSetsRetry cfg st t (fun _ _ => .serverError code)
      pokemon generation tier).attempts = 1) := by
  have habs := getCached_absent cfg st t (mkCacheKey pokemon generation tier) hmiss
  refine ⟨?_, ?_, fun code => ?_, fun code => ?_⟩
  · rw [getSets, habs]; rfl
  · rw [getSets, habs]; rfl
  · rw [getSets, habs]; rfl
  · have h : (getSets cfg st t (fun _ => .serverError code)
        pokemon generation tier).result = .ok none := by
      rw [getSets, habs]; rfl
    rw [getSetsRetry, show DEFAULT_RETRY_ATTEMPTS = 2 + 1 from rfl,
      getSetsRetryLoop_ok cfg st t (fun _ _ => .serverError code)
        pokemon generation tier 0 2 h]

/-- Witness for C4 (amended) at concrete inputs. -/
theorem not_found_vs_error_witness :
    (getSets defaultConfig ClientState.initial 0 (fun _ => .notFound)
      "garchomp" "gen9" "ou").result = .ok none ∧
    (getSets defaultConfig ClientState.initial 0 (fun _ => .timeout)
      "garchomp" "gen9" "ou").result = .error .timeout := by
  have h := not_found_vs_error_amended defaultConfig ClientState.initial 0
    "garchomp" "gen9" "ou" (by decide)
  exact ⟨h.1, h.2.1⟩

/-- C5 counterexample: with the cache empty and the upstream answering 200
with a malformed body, the retried `get_sets` makes exactly one attempt
and returns `None`: the decode error is not retried, but it is also not
raised to the caller — the blanket `except Exception` handler converts it
into an absent result, refuting "propagated immediately ... neither
retried nor converted into an absent result". -/
theorem decode_error_counterexample :
    (getSetsRetry defaultConfig ClientState.initial 0
      (fun _ _ => .okMalformed) "garchomp" "gen9" "ou").res = .ok none ∧
    (getSetsRetry defaultConfig ClientState.initial 0
      (fun _ _ => .okMalformed) "garchomp" "gen9" "ou").attempts = 1 ∧
    (getSetsRetry defaultConfig ClientState.initial 0
      (fun _ _ => .okMalformed) "garchomp" "gen9" "ou").netCalls = 1 := by
  decide

/-- C5 amended: the retry policy triggers only on the configured retryable
exceptions — a first-attempt non-retryable exception is propagated
immediately with exactly one invocation and no backoff sleep; and a 200
response with an undecodable body makes `get_sets` return `None` (absent)
with exactly one attempt and one network call: the decode error is not
retried, but is swallowed by `get_sets`'s blanket exception handler
instead of being raised to the caller. -/
theorem decode_error_amended {ε α : Type} (retryable : ε → Bool)
    (bd md mr : Nat) (f : Nat → Except ε α) (e : ε)
    (cfg : Config) (st : ClientState) (t : Int)
    (pokemon generation tier : String)
    (hret : retryable e = false) (hf : f 0 = .error e)
    (hmiss : lookupKey st.cache (mkCacheKey pokemon generation tier) = none) :
    (retryOnError (mr + 1) retryable bd md f = ⟨.raised e, 1, []⟩) ∧
    ((getSets cfg st t (fun _ => .okMalformed) pokemon generation tier).result =
      .ok none) ∧
    ((getSetsRetry cfg st t (fun _ _ => .okMalformed)
      pokemon generation tier).attempts = 1) ∧
    ((getSetsRetry cfg st t (fun _ _ => .okMalformed)
      pokemon generation tier).netCalls = 1) := by
  have habs := getCached_absent cfg st t (mkCacheKey pokemon generation tier) hmiss
  have hok : (getSets cfg st t (fun _ => .okMalformed)
      pokemon generation tier).result = .ok none := by
    rw [getSets, habs]; rfl
  refine ⟨?_, hok, ?_, ?_⟩
  · rw [retryOnError, retryLoop, hf]
    simp [hret]
  · rw [getSetsRetry, show DEFAULT_RETRY_ATTEMPTS = 2 + 1 from rfl,
      getSetsRetryLoop_ok cfg st t (fun _ _ => .okMalformed)
        pokemon generation tier 0 2 hok]
  · rw [getSetsRetry, show DEFAULT_RETRY_ATTEMPTS = 2 + 1 from rfl,
      getSetsRetryLoop_ok cfg st t (fun _ _ => .okMalformed)
        pokemon generation tier 0 2 hok]
    rw [getSets, habs]
    exact getSetsFetch_networkCalls _ _ _ _ _ _ _

/-- Witness for C5 (amended) at concrete inputs: a non-retryable
first-attempt exception (retryable predicate rejects even errors) and the
malformed-200 behaviour on an empty cache. -/
theorem decode_error_witness :
    (retryOnError 3 (fun _ : Nat => false) 1 10
      (fun i : Nat => (.error i : Except Nat Nat)) = ⟨.raised 0, 1, []⟩) ∧
    (getSets defaultConfig ClientState.initial 0 (fun _ => .okMalformed)
      "garchomp" "gen9" "ou").result = .ok none := by
  have h := decode_error_amended (fun _ : Nat => false) 1 10 2
    (fun i : Nat => (.error i : Except Nat Nat)) 0
    defaultConfig ClientState.initial 0 "garchomp" "gen9" "ou"
    rfl rfl (by decide)
  exact ⟨h.1, h.2.1⟩

/-! ## Sub-item lookup rule of `get_sets` (C6) -/

theorem find?_first {α : Type} (p : α → Bool) (pre post : List α) (x : α)
    (hpre : ∀ e ∈ pre, p e = false) (hx : p x = true) :
    (pre ++ x :: post).find? p = some x := by
  induction pre with
  | nil => simp [List.find?_cons, hx]
  | cons e rest ih =>
    rw [List.cons_append, List.find?_cons,
      hpre e (List.mem_cons_self e rest)]
    exact ih (fun e' he' => hpre e' (List.mem_cons_of_mem e he'))

/-- C6: sub-item lookup rule of `get_sets` on a 200 response (given a cache
miss for the request's key).  (1) If the payload decomposes as
`pre ++ (k0, v) :: post` where no key of `pre` normalizes to the query and
`k0` does, the call returns `v` and stores `v` (the matched sub-item, not
the whole payload) under the cache key, performing one network call.
(2) If *no* key normalizes to the query exactly, the first entry (in
payload order) whose normalized key contains the query as a substring is
returned and stored.  (3) If neither kind of match exists, the result is
absent and nothing is stored. -/
theorem subitem_lookup_rule (cfg : Config) (st : ClientState) (t : Int)
    (payload : List (String × Nat)) (pokemon generation tier : String)
    (hmiss : lookupKey st.cache (mkCacheKey pokemon generation tier) = none) :
    (∀ pre post k0 v, payload = pre ++ (k0, v) :: post →
      (∀ e ∈ pre, normName e.1 ≠ normQuery pokemon) →
      normName k0 = normQuery pokemon →
      getSets cfg st t (fun _ => .ok payload) pokemon generation tier =
        ⟨.ok (some (.sets v)),
          setCache cfg { st with cacheMisses := st.cacheMisses + 1 } t
            (mkCacheKey pokemon generation tier) (.sets v), 1⟩) ∧
    ((∀ e ∈ payload, normName e.1 ≠ normQuery pokemon) →
      ∀ pre post k0 v, payload = pre ++ (k0, v) :: post →
      (∀ e ∈ pre, containsSubstr (normQuery pokemon) (normName e.1) = false) →
      containsSubstr (normQuery pokemon) (normName k0) = true →
      getSets cfg st t (fun _ => .ok payload) pokemon generation tier =
        ⟨.ok (some (.sets v)),
          setCache cfg { st with cacheMisses := st.cacheMisses + 1 } t
            (mkCacheKey pokemon generation tier) (.sets v), 1⟩) ∧
    ((∀ e ∈ payload, normName e.1 ≠ normQuery pokemon ∧
        containsSubstr (normQuery pokemon) (normName e.1) = false) →
      getSets cfg st t (fun _ => .ok payload) pokemon generation tier =
        ⟨.ok none, { st with cacheMisses := st.cacheMisses + 1 }, 1⟩) := by
  have habs := getCached_absent cfg st t (mkCacheKey pokemon generation tier) hmiss
  refine ⟨fun pre post k0 v hdec hpre hk => ?_, fun hnoex pre post k0 v hdec hpre hk => ?_,
    fun hnone => ?_⟩
  · have hfind : findExact (normQuery pokemon) payload = some (k0, v) := by
      rw [hdec]
      exact find?_first _ pre post (k0, v)
        (fun e he => beq_eq_false_iff_ne.mpr (hpre e he)) (beq_iff_eq.mpr hk)
    rw [getSets, habs]
    simp only [getSetsFetch, hfind]
  · have hfindEx : findExact (normQuery pokemon) payload = none :=
      List.find?_eq_none.mpr (fun e he => by
        simp only [beq_iff_eq]
        exact hnoex e he)
    have hfindSub : findSub (normQuery pokemon) payload = some (k0, v) := by
      rw [hdec]
      exact find?_first _ pre post (k0, v) hpre hk
    rw [getSets, habs]
    simp only [getSetsFetch, hfindEx, hfindSub]
  · have hfindEx : findExact (normQuery pokemon) payload = none :=
      List.find?_eq_none.mpr (fun e he => by
        simp only [beq_iff_eq]
        exact (hnone e he).1)
    have hfindSub : findSub (normQuery pokemon) payload = none :=
      List.find?_eq_none.mpr (fun e he => by
        simp only [(hnone e he).2]
        exact Bool.false_ne_true)
    rw [getSets, habs]
    simp only [getSetsFetch, hfindEx, hfindSub]

/-- Witness for C6 at a concrete payload: an exact match is preferred and
its sub-item stored; with no exact match the first substring match in
payload order wins (`"chomp"` matches `"Garchomp"` before
`"Mega Garchomp"`), and the stored cache entry is the matched sub-item
under the request's cache key. -/
theorem subitem_lookup_rule_witness :
    (getSets defaultConfig ClientState.initial 0
      (fun _ => .ok [("Iron Hands", 3), ("Garchomp", 7), ("Mega Garchomp", 9)])
      "Garchomp" "gen9" "ou").result = .ok (some (.sets 7)) ∧
    (getSets defaultConfig ClientState.initial 0
      (fun _ => .ok [("Iron Hands", 3), ("Garchomp", 7), ("Mega Garchomp", 9)])
      "chomp" "gen9" "ou") =
      ⟨.ok (some (.sets 7)),
        { ClientState.initial with
          cache := [("gen9ou:chomp", CacheVal.sets 7, 0)]
          cacheMisses := 1 }, 1⟩ := by
  constructor
  · have h := (subitem_lookup_rule defaultConfig ClientState.initial 0
      [("Iron Hands", 3), ("Garchomp", 7), ("Mega Garchomp", 9)]
      "Garchomp" "gen9" "ou" (by decide)).1
      [("Iron Hands", 3)] [("Mega Garchomp", 9)] "Garchomp" 7 rfl
      (by decide) (by decide)
    rw [h]
  · have h := (subitem_lookup_rule defaultConfig ClientState.initial 0
      [("Iron Hands", 3), ("Garchomp", 7), ("Mega Garchomp", 9)]
      "chomp" "gen9" "ou" (by decide)).2.1 (by decide)
      [("Iron Hands", 3)] [("Mega Garchomp", 9)] "Garchomp" 7 rfl
      (by decide) (by decide)
    rw [h]
    decide

/-! ## Partition-discovery memory (C7) -/

theorem probeAllFormats_didFullProbe (cfg : Config) (st1 : ClientState) (t : Int)
    (net : String → HttpResult) (head : String → Bool)
    (pokemon generation tierKey : String) :
    (probeAllFormats cfg st1 t net head pokemon generation tierKey).didFullProbe =
      true := by
  unfold probeAllFormats
  split
  · rfl
  · split <;> rfl

theorem probeAllFormats_stores (cfg : Config) (st1 : ClientState) (t : Int)
    (net : String → HttpResult) (head : String → Bool)
    (pokemon generation tierKey : String)
    (found : List (String × CacheVal))
    (hres : (probeAllFormats cfg st1 t net head pokemon generation tierKey).result =
      .ok found)
    (hne : found ≠ []) :
    lookupKey (probeAllFormats cfg st1 t net head pokemon generation
        tierKey).state.cache tierKey =
      some (.tiers (found.map Prod.fst), t) := by
  unfold probeAllFormats at hres ⊢
  by_cases h1 : ((discoverFormats cfg st1 t head generation).1).isEmpty
  · rw [if_pos h1] at hres
    simp only [Except.ok.injEq] at hres
    exact absurd hres.symm hne
  · rw [if_neg h1] at hres ⊢
    by_cases h2 : ((fetchFormatsLoop cfg (discoverFormats cfg st1 t head generation).2
        t net pokemon generation (discoverFormats cfg st1 t head generation).1).1).isEmpty
    · rw [if_pos h2] at hres
      simp only [Except.ok.injEq] at hres
      rw [← hres] at hne
      exact absurd (List.isEmpty_iff.mp h2) hne
    · rw [if_neg h2] at hres ⊢
      simp only [Except.ok.injEq] at hres
      rw [← hres]
      exact lookupKey_setKey_self _ _ _

/-- C7 (amended): partition-discovery memory.  (1) With no remembered tier
list for `(pokemon, generation)`, `find_pokemon_in_generation` runs the
full discovery-and-probe path, and if it finds the Pokémon anywhere it
stores the list of found tiers under `tier_location:{generation}:{pokemon}`
via `_set_cache` — in the *main* value cache, timestamped `t`, hence
subject to the main cache's TTL and LRU eviction, not to the longer
discovery-cache TTL.  (2) While that entry is fresh for the *value*-cache
TTL, a subsequent call skips the full probe (`didFullProbe = false`) and
queries exactly the remembered tiers. -/
theorem partition_memory_amended (cfg : Config) (st : ClientState) (t : Int)
    (net : String → HttpResult) (head : String → Bool)
    (pokemon generation : String) :
    ((lookupKey st.cache (tierLocationKey pokemon generation) = none →
      (findPokemonInGeneration cfg st t net head pokemon generation).didFullProbe =
        true ∧
      ∀ found,
        (findPokemonInGeneration cfg st t net head pokemon generation).result =
          .ok found →
        found ≠ [] →
        lookupKey (findPokemonInGeneration cfg st t net head pokemon
            generation).state.cache (tierLocationKey pokemon generation) =
          some (.tiers (found.map Prod.fst), t))) ∧
    (∀ tier0 restTiers ts,
      lookupKey st.cache (tierLocationKey pokemon generation) =
        some (.tiers (tier0 :: restTiers), ts) →
      t - ts < cfg.cacheTimeout →
      (findPokemonInGeneration cfg st t net head pokemon generation).didFullProbe =
        false ∧
      (findPokemonInGeneration cfg st t net head pokemon generation).probedTiers =
        tier0 :: restTiers) := by
  constructor
  · intro hl
    have habs := getCached_absent cfg st t (tierLocationKey pokemon generation) hl
    have hfind : findPokemonInGeneration cfg st t net head pokemon generation =
        probeAllFormats cfg { st with cacheMisses := st.cacheMisses + 1 } t net head
          pokemon generation (tierLocationKey pokemon generation) := by
      rw [findPokemonInGeneration, habs]
    rw [hfind]
    exact ⟨probeAllFormats_didFullProbe _ _ _ _ _ _ _ _,
      fun found hres hne =>
        probeAllFormats_stores _ _ _ _ _ _ _ _ found hres hne⟩
  · intro tier0 restTiers ts hl hfresh
    have hhit := getCached_fresh cfg st t (tierLocationKey pokemon generation) hl hfresh
    have hfind : findPokemonInGeneration cfg st t net head pokemon generation =
        match fetchTiersLoop cfg
            { st with
              cache := eraseKey st.cache (tierLocationKey pokemon generation) ++
                [(tierLocationKey pokemon generation,
                  CacheVal.tiers (tier0 :: restTiers), ts)]
              cacheHits := st.cacheHits + 1 } t net pokemon generation
            (tier0 :: restTiers) with
        | (.error e, st2) => ⟨.error e, st2, tier0 :: restTiers, false⟩
        | (.ok found, st2) => ⟨.ok found, st2, tier0 :: restTiers, false⟩ := by
      rw [findPokemonInGeneration, hhit]
    rw [hfind]
    rcases fetchTiersLoop cfg _ t net pokemon generation (tier0 :: restTiers) with
      ⟨res2, st2⟩
    cases res2 <;> exact ⟨rfl, rfl⟩

/-- C7 counterexample: the remembered tier list lives in the short-TTL
value cache, not in an independent longer-TTL discovery store.  After a
successful probe at `t = 0` remembers `["ubers"]`, a second call at
`t = 60` — within the (spec-modelled, one-day) discovery-cache TTL but at
the value-cache TTL — finds the memory expired and runs the full probe
again, re-querying `"ou"` as well; this refutes "skips the full probe ...
unless the discovery-cache TTL ... has elapsed". -/
theorem partition_memory_counterexample :
    (lookupKey (findPokemonInGeneration defaultConfig ClientState.initial 0
        (fun fid => if fid == "gen9ubers" then .ok [("Garchomp", 1)] else .notFound)
        (fun u => u == "gen9ou" || u == "gen9ubers") "garchomp" "gen9").state.cache
      (tierLocationKey "garchomp" "gen9") =
      some (.tiers ["ubers"], 0)) ∧
    ((findPokemonInGeneration defaultConfig
        (findPokemonInGeneration defaultConfig ClientState.initial 0
          (fun fid => if fid == "gen9ubers" then .ok [("Garchomp", 1)] else .notFound)
          (fun u => u == "gen9ou" || u == "gen9ubers") "garchomp" "gen9").state 60
        (fun fid => if fid == "gen9ubers" then .ok [("Garchomp", 1)] else .notFound)
        (fun u => u == "gen9ou" || u == "gen9ubers") "garchomp" "gen9").didFullProbe =
      true) ∧
    ((findPokemonInGeneration defaultConfig
        (findPokemonInGeneration defaultConfig ClientState.initial 0
          (fun fid => if fid == "gen9ubers" then .ok [("Garchomp", 1)] else .notFound)
          (fun u => u == "gen9ou" || u == "gen9ubers") "garchomp" "gen9").state 60
        (fun fid => if fid == "gen9ubers" then .ok [("Garchomp", 1)] else .notFound)
        (fun u => u == "gen9ou" || u == "gen9ubers") "garchomp" "gen9").probedTiers =
      ["ou", "ubers"]) ∧
    ((60 : Int) - 0 < defaultConfig.formatCacheTimeout) := by
  decide

/-- Witness for C7 (amended): a concrete run where the first call stores
the found tiers, and a second call at `t = 30` (within the value-cache
TTL) skips the probe and queries only the remembered tier. -/
theorem partition_memory_witness :
    ((findPokemonInGeneration defaultConfig ClientState.initial 0
        (fun fid => if fid == "gen9ubers" then .ok [("Garchomp", 1)] else .notFound)
        (fun u => u == "gen9ou" || u == "gen9ubers") "garchomp" "gen9").didFullProbe =
      true) ∧
    ((findPokemonInGeneration defaultConfig
        (findPokemonInGeneration defaultConfig ClientState.initial 0
          (fun fid => if fid == "gen9ubers" then .ok [("Garchomp", 1)] else .notFound)
          (fun u => u == "gen9ou" || u == "gen9ubers") "garchomp" "gen9").state 30
        (fun fid => if fid == "gen9ubers" then .ok [("Garchomp", 1)] else .notFound)
        (fun u => u == "gen9ou" || u == "gen9ubers") "garchomp" "gen9").didFullProbe =
      false) ∧
    ((findPokemonInGeneration defaultConfig
        (findPokemonInGeneration defaultConfig ClientState.initial 0
          (fun fid => if fid == "gen9ubers" then .ok [("Garchomp", 1)] else .notFound)
          (fun u => u == "gen9ou" || u == "gen9ubers") "garchomp" "gen9").state 30
        (fun fid => if fid == "gen9ubers" then .ok [("Garchomp", 1)] else .notFound)
        (fun u => u == "gen9ou" || u == "gen9ubers") "garchomp" "gen9").probedTiers =
      ["ubers"]) := by
  refine ⟨?_, ?_, ?_⟩
  · exact ((partition_memory_amended defaultConfig ClientState.initial 0
      (fun fid => if fid == "gen9ubers" then .ok [("Garchomp", 1)] else .notFound)
      (fun u => u == "gen9ou" || u == "gen9ubers") "garchomp" "gen9").1 (by decide)).1
  · exact ((partition_memory_amended defaultConfig
      (findPokemonInGeneration defaultConfig ClientState.initial 0
        (fun fid => if fid == "gen9ubers" then .ok [("Garchomp", 1)] else .notFound)
        (fun u => u == "gen9ou" || u == "gen9ubers") "garchomp" "gen9").state 30
      (fun fid => if fid == "gen9ubers" then .ok [("Garchomp", 1)] else .notFound)
      (fun u => u == "gen9ou" || u == "gen9ubers") "garchomp" "gen9").2 "ubers" [] 0
      (by decide) (by decide)).1
  · exact ((partition_memory_amended defaultConfig
      (findPokemonInGeneration defaultConfig ClientState.initial 0
        (fun fid => if fid == "gen9ubers" then .ok [("Garchomp", 1)] else .notFound)
        (fun u => u == "gen9ou" || u == "gen9ubers") "garchomp" "gen9").state 30
      (fun fid => if fid == "gen9ubers" then .ok [("Garchomp", 1)] else .notFound)
      (fun u => u == "gen9ou" || u == "gen9ubers") "garchomp" "gen9").2 "ubers" [] 0
      (by decide) (by decide)).2

/-! ## Circuit breaker state machine (C8) -/

theorem Breaker.run_success (b : Breaker) (t : Int) :
    Breaker.run b t .success =
      if b.state = .halfOpen then
        ⟨{ b with state := .closed, failureCount := 0 }, true, false, false⟩
      else ⟨b, true, false, false⟩ := rfl

theorem Breaker.run_failure (b : Breaker) (t : Int) :
    Breaker.run b t .failure =
      if b.failureThreshold ≤ b.failureCount + 1 then
        ⟨{ b with
            failureCount := b.failureCount + 1
            lastFailureTime := some t
            state := .opened }, true, true, false⟩
      else
        ⟨{ b with
            failureCount := b.failureCount + 1
            lastFailureTime := some t }, true, true, false⟩ := rfl

theorem Breaker.call_closed {b : Breaker} (t : Int) (o : CallOutcome)
    (hst : b.state = .closed) : Breaker.call b t o = Breaker.run b t o := by
  rw [Breaker.call, hst]

theorem Breaker.call_halfOpen {b : Breaker} (t : Int) (o : CallOutcome)
    (hst : b.state = .halfOpen) : Breaker.call b t o = Breaker.run b t o := by
  rw [Breaker.call, hst]

theorem Breaker.call_open_wait {b : Breaker} (t : Int) (o : CallOutcome)
    (hst : b.state = .opened)
    (hrec : ¬ b.recoveryTimeout ≤ t - b.lastFailureTime.getD 0) :
    Breaker.call b t o = ⟨b, false, true, true⟩ := by
  rw [Breaker.call, hst, if_neg hrec]

theorem Breaker.call_open_probe {b : Breaker} (t : Int) (o : CallOutcome)
    (hst : b.state = .opened)
    (hrec : b.recoveryTimeout ≤ t - b.lastFailureTime.getD 0) :
    Breaker.call b t o = Breaker.run { b with state := .halfOpen } t o := by
  rw [Breaker.call, hst, if_pos hrec]

/-- C8 (amended): the breaker starts `closed` with failure count zero; while
`open` within the recovery timeout every call fails fast without invoking
the wrapped operation and changes nothing; a call arriving at least
`recovery_timeout` after the last failure runs a half-open probe whose
success resets to `closed` with count zero and whose failure returns to
`open`; a `half_open` probe success resets to `closed`/zero and a probe
failure returns to `open`; a success while `closed` leaves the breaker
(and in particular its failure count) unchanged, so the count is
*cumulative since the last half-open reset*, not consecutive; a failure
while `closed` increments the count, records the failure time, and opens
the breaker exactly when the incremented count reaches the threshold.
The invariant `Breaker.Inv` (open/half-open states carry
`count ≥ threshold` and a recorded failure time) is preserved by every
call. -/
theorem circuit_breaker_amended (b : Breaker) (t : Int) :
    ((Breaker.init b.failureThreshold b.recoveryTimeout).state = .closed ∧
      (Breaker.init b.failureThreshold b.recoveryTimeout).failureCount = 0) ∧
    (∀ lt o, b.state = .opened → b.lastFailureTime = some lt →
      t - lt < b.recoveryTimeout →
      Breaker.call b t o = ⟨b, false, true, true⟩) ∧
    (∀ lt, b.state = .opened → b.lastFailureTime = some lt →
      b.recoveryTimeout ≤ t - lt →
      Breaker.call b t .success =
        ⟨{ b with state := .closed, failureCount := 0 }, true, false, false⟩) ∧
    (∀ lt, b.state = .opened → b.lastFailureTime = some lt →
      b.recoveryTimeout ≤ t - lt → b.failureThreshold ≤ b.failureCount →
      (Breaker.call b t .failure).breaker.state = .opened ∧
      (Breaker.call b t .failure).breaker.failureCount = b.failureCount + 1 ∧
      (Breaker.call b t .failure).breaker.lastFailureTime = some t ∧
      (Breaker.call b t .failure).invoked = true) ∧
    (b.state = .halfOpen →
      Breaker.call b t .success =
        ⟨{ b with state := .closed, failureCount := 0 }, true, false, false⟩) ∧
    (b.state = .halfOpen → b.failureThreshold ≤ b.failureCount →
      (Breaker.call b t .failure).breaker.state = .opened ∧
      (Breaker.call b t .failure).breaker.failureCount = b.failureCount + 1) ∧
    (b.state = .closed → Breaker.call b t .success = ⟨b, true, false, false⟩) ∧
    (b.state = .closed →
      (Breaker.call b t .failure).breaker.failureCount = b.failureCount + 1 ∧
      (Breaker.call b t .failure).breaker.lastFailureTime = some t ∧
      ((Breaker.call b t .failure).breaker.state = .opened ↔
        b.failureThreshold ≤ b.failureCount + 1) ∧
      (Breaker.call b t .failure).raised = true) ∧
    (∀ o, Breaker.Inv b → Breaker.Inv (Breaker.call b t o).breaker) := by
  refine ⟨⟨rfl, rfl⟩, ?_, ?_, ?_, ?_, ?_, ?_, ?_, ?_⟩
  · intro lt o hst hlt hrec
    rw [Breaker.call_open_wait t o hst (by rw [hlt]; exact not_le.mpr hrec)]
  · intro lt hst hlt hrec
    rw [Breaker.call_open_probe t .success hst (by rw [hlt]; exact hrec),
      Breaker.run_success, if_pos rfl]
  · intro lt hst hlt hrec hthr
    rw [Breaker.call_open_probe t .failure hst (by rw [hlt]; exact hrec),
      Breaker.run_failure, if_pos (by simp only []; omega)]
    exact ⟨rfl, rfl, rfl, rfl⟩
  · intro hst
    rw [Breaker.call_halfOpen t .success hst, Breaker.run_success, if_pos hst]
  · intro hst hthr
    rw [Breaker.call_halfOpen t .failure hst, Breaker.run_failure,
      if_pos (by omega : b.failureThreshold ≤ b.failureCount + 1)]
    exact ⟨rfl, rfl⟩
  · intro hst
    rw [Breaker.call_closed t .success hst, Breaker.run_success,
      if_neg (by simp [hst])]
  · intro hst
    rw [Breaker.call_closed t .failure hst, Breaker.run_failure]
    by_cases hthr : b.failureThreshold ≤ b.failureCount + 1
    · rw [if_pos hthr]
      exact ⟨rfl, rfl, ⟨fun _ => hthr, fun _ => rfl⟩, rfl⟩
    · rw [if_neg hthr]
      refine ⟨rfl, rfl, ⟨fun h => ?_, fun h => absurd h hthr⟩, rfl⟩
      simp only [] at h
      rw [hst] at h
      cases h
  · intro o hinv
    rcases hst : b.state with _ | _ | _
    · rw [Breaker.call_closed t o hst]
      cases o
      · rw [Breaker.run_success, if_neg (by simp [hst])]
        intro h
        rcases h with h | h <;> (rw [hst] at h; cases h)
      · rw [Breaker.run_failure]
        by_cases hthr : b.failureThreshold ≤ b.failureCount + 1
        · rw [if_pos hthr]
          intro _
          exact ⟨hthr, rfl⟩
        · rw [if_neg hthr]
          intro h
          rcases h with h | h <;> (simp only [] at h; rw [hst] at h; cases h)
    · by_cases hrec : b.recoveryTimeout ≤ t - b.lastFailureTime.getD 0
      · rw [Breaker.call_open_probe t o hst hrec]
        cases o
        · rw [Breaker.run_success, if_pos rfl]
          intro h
          rcases h with h | h <;> cases h
        · rw [Breaker.run_failure,
            if_pos (by simp only []; have := (hinv (Or.inl hst)).1; omega)]
          intro _
          refine ⟨?_, rfl⟩
          have := (hinv (Or.inl hst)).1
          simp only []
          omega
      · rw [Breaker.call_open_wait t o hst hrec]
        intro _
        exact hinv (Or.inl hst)
    · rw [Breaker.call_halfOpen t o hst]
      cases o
      · rw [Breaker.run_success, if_pos hst]
        intro h
        rcases h with h | h <;> cases h
      · rw [Breaker.run_failure,
          if_pos (by have := (hinv (Or.inr hst)).1; omega)]
        intro _
        refine ⟨?_, rfl⟩
        have := (hinv (Or.inr hst)).1
        simp only []
        omega

/-- C8 counterexample: with `failure_threshold = 2`, the sequence
failure (t=0), success (t=1), failure (t=2) from a fresh breaker opens it,
although the opening failure was preceded directly by a success (the
consecutive-failure streak is 1 < 2): the counter is cumulative because a
success while `closed` does not reset it.  This refutes "transitions
closed -> open exactly when the consecutive-failure count reaches
failure_threshold". -/
theorem circuit_breaker_counterexample :
    (Breaker.call (Breaker.call (Breaker.call (Breaker.init 2 60) 0
        .failure).breaker 1 .success).breaker 2 .failure).breaker.state =
      .opened ∧
    (Breaker.call (Breaker.call (Breaker.init 2 60) 0
        .failure).breaker 1 .success).breaker.state = .closed ∧
    (Breaker.call (Breaker.call (Breaker.init 2 60) 0
        .failure).breaker 1 .success).breaker.failureCount = 1 := by
  decide

/-- Witness for C8 (amended) at concrete breakers: fast-fail while open
within the timeout, half-open probe success closing the breaker, and the
closed-state failure transition at the threshold. -/
theorem circuit_breaker_witness :
    (Breaker.call ⟨2, 60, 2, some 0, .opened⟩ 30 .failure =
      ⟨⟨2, 60, 2, some 0, .opened⟩, false, true, true⟩) ∧
    (Breaker.call ⟨2, 60, 2, some 0, .opened⟩ 60 .success =
      ⟨⟨2, 60, 0, some 0, .closed⟩, true, false, false⟩) ∧
    (Breaker.call ⟨2, 60, 1, some 0, .closed⟩ 5 .failure).breaker.state =
      .opened := by
  refine ⟨?_, ?_, ?_⟩
  · exact (circuit_breaker_amended ⟨2, 60, 2, some 0, .opened⟩ 30).2.1 0
      .failure rfl rfl (by decide)
  · exact (circuit_breaker_amended ⟨2, 60, 2, some 0, .opened⟩ 60).2.2.1 0
      rfl rfl (by decide)
  · exact (((circuit_breaker_amended ⟨2, 60, 1, some 0, .closed⟩ 5).2.2.2.2.2.2.2.1
      rfl).2.2.1).mpr (by decide)

/-! ## Disk persistence round-trip (C9) -/

theorem setKey_forall {α : Type} {P : String × α → Prop} :
    ∀ (c : List (String × α)) (k : String) (v : α),
      (∀ e ∈ c, P e) → P (k, v) → ∀ e ∈ setKey c k v, P e := by
  intro c
  induction c with
  | nil =>
    intro k v _ hkv e he
    rw [setKey] at he
    rcases List.mem_singleton.mp he with rfl
    exact hkv
  | cons e0 rest ih =>
    intro k v hc hkv e he
    rw [setKey] at he
    by_cases h0 : e0.1 = k
    · rw [if_pos h0] at he
      rcases List.mem_cons.mp he with rfl | hmem
      · exact hkv
      · exact hc e (List.mem_cons_of_mem e0 hmem)
    · rw [if_neg h0] at he
      rcases List.mem_cons.mp he with rfl | hmem
      · exact hc e (List.mem_cons_self e rest)
      · exact ih k v (fun e' he' => hc e' (List.mem_cons_of_mem e0 he')) hkv e hmem

theorem foldl_setKey_forall {β : Type} (p : String × β → Prop) [DecidablePred p]
    (P : String × β → Prop) (hP : ∀ e, p e → P e) :
    ∀ (l : List (String × β)) (c : List (String × β)), (∀ e ∈ c, P e) →
      ∀ e ∈ l.foldl (fun c e => if p e then setKey c e.1 e.2 else c) c, P e := by
  intro l
  induction l with
  | nil => intro c hc; exact hc
  | cons e0 rest ih =>
    intro c hc
    rw [List.foldl_cons]
    by_cases hp : p e0
    · rw [if_pos hp]
      exact ih _ (setKey_forall c e0.1 e0.2 hc (hP e0 hp))
    · rw [if_neg hp]
      exact ih _ hc

theorem foldl_setKey_filter {β : Type} (p : String × β → Prop) [DecidablePred p] :
    ∀ l : List (String × β), (l.map Prod.fst).Nodup →
      l.foldl (fun c e => if p e then setKey c e.1 e.2 else c)
          ([] : List (String × β)) =
        l.filter (fun e => decide (p e)) := by
  intro l
  induction l using List.reverseRecOn with
  | nil => intro _; rfl
  | append_singleton l0 a ih =>
    intro hnd
    rw [List.map_append] at hnd
    have hnd' : (l0.map Prod.fst).Nodup := hnd.of_append_left
    have hmem_a : a.1 ∉ l0.map Prod.fst := by
      have hdisj := List.disjoint_of_nodup_append hnd
      intro hx
      exact hdisj hx (by simp)
    rw [List.foldl_append, List.foldl_cons, List.foldl_nil, ih hnd',
      List.filter_append]
    by_cases hp : p a
    · rw [if_pos hp]
      have hnot : a.1 ∉ (l0.filter (fun e => decide (p e))).map Prod.fst := by
        intro hx
        rcases List.mem_map.mp hx with ⟨e, he, hex⟩
        exact hmem_a (List.mem_map.mpr ⟨e, List.mem_of_mem_filter he, hex⟩)
      rw [setKey_of_not_mem hnot]
      simp [hp]
    · rw [if_neg hp]
      simp [hp]

/-- C9 (amended): persistence round-trip.  `close()` (with persistence on)
serializes the *entire* cache and discovery cache — including entries that
are already expired at close time — not only the live ones; it is the
loader that filters: on startup only entries still within their TTL
relative to the load time are admitted, so an entry whose TTL has elapsed
by load time is discarded and never resurrected; loading with no cache
file leaves the state untouched; and loading a saved snapshot into a
fresh client yields exactly the snapshot's still-fresh entries, in
order. -/
theorem persistence_amended (cfg : Config) (st : ClientState) (t : Int) :
    (loadCacheFromDisk cfg st t none = st) ∧
    ((saveCacheToDisk st).cache = st.cache ∧
      (saveCacheToDisk st).discoveredFormats = st.discoveredFormats ∧
      closeClient true st = some (saveCacheToDisk st)) ∧
    (st.cache = [] → ∀ (d : SaveData) (k : String) (v : CacheVal) (ts : Int),
      lookupKey (loadCacheFromDisk cfg st t (some d)).cache k = some (v, ts) →
      t - ts < cfg.cacheTimeout) ∧
    (∀ st2 : ClientState, (st2.cache.map Prod.fst).Nodup → st.cache = [] →
      (loadCacheFromDisk cfg st t (some (saveCacheToDisk st2))).cache =
        st2.cache.filter (fun e => decide (t - e.2.2 < cfg.cacheTimeout))) := by
  refine ⟨rfl, ⟨rfl, rfl, rfl⟩, fun hempty d k v ts hl => ?_, fun st2 hnd hempty => ?_⟩
  · have hmem := lookupKey_mem hl
    have hall := foldl_setKey_forall
      (fun e : String × CacheVal × Int => t - e.2.2 < cfg.cacheTimeout)
      (fun e => t - e.2.2 < cfg.cacheTimeout) (fun e hp => hp) d.cache st.cache
      (by rw [hempty]; intro e he; cases he)
    have := hall (k, v, ts) (by
      simpa only [loadCacheFromDisk] using hmem)
    exact this
  · simp only [loadCacheFromDisk, saveCacheToDisk, hempty]
    exact foldl_setKey_filter
      (fun e : String × CacheVal × Int => t - e.2.2 < cfg.cacheTimeout) st2.cache hnd

/-- C9 counterexample: a client whose only cache entry was stored at time
`0` and is closed at time `100` (entry already expired, `100 - 0 ≥ 60`)
still serializes that entry — `_save_cache_to_disk` pickles
`dict(self.cache)` unfiltered — refuting "serializes only the live
(non-expired) cache entries".  (The loader then discards it on the next
startup, as the rest of the claim says.) -/
theorem persistence_counterexample :
    (saveCacheToDisk ⟨[("k", .sets 1, 0)], [], 0, 0, 0⟩).cache =
      [("k", CacheVal.sets 1, 0)] ∧
    ¬ ((100 : Int) - 0 < CACHE_TIMEOUT) ∧
    closeClient true ⟨[("k", .sets 1, 0)], [], 0, 0, 0⟩ =
      some ⟨[("k", CacheVal.sets 1, 0)], []⟩ ∧
    lookupKey (loadCacheFromDisk defaultConfig ClientState.initial 100
      (some ⟨[("k", CacheVal.sets 1, 0)], []⟩)).cache "k" = none := by
  decide

/-- Witness for C9 (amended): loading nothing is a no-op; an entry stored
at `0` and loaded at `100` (expired) is discarded while one stored at `90`
survives; the round-trip filter keeps exactly the fresh entries. -/
theorem persistence_witness :
    (loadCacheFromDisk defaultConfig ClientState.initial 100 none =
      ClientState.initial) ∧
    ((loadCacheFromDisk defaultConfig ClientState.initial 100
        (some (saveCacheToDisk
          ⟨[("old", .sets 1, 0), ("new", .sets 2, 90)], [], 0, 0, 0⟩))).cache =
      [("new", CacheVal.sets 2, 90)]) := by
  constructor
  · exact (persistence_amended defaultConfig ClientState.initial 100).1
  · have h := (persistence_amended defaultConfig ClientState.initial 100).2.2.2
      ⟨[("old", .sets 1, 0), ("new", .sets 2, 90)], [], 0, 0, 0⟩
      (by decide) rfl
    rw [h]
    decide

end SmogonBot
